import Mathlib

/-!
# Bearer-token resource server (`main.go`)

A shallow embedding of `checkToken` and of the four protected HTTP handlers of `main.go`
(the public handler only prints the time and is left out).

* A Go `string` is a Lean `String`: every string the handlers inspect comes out of
  the JSON decoder or is compared with an ASCII literal, so it is a sequence of
  Unicode scalar values.
* `http.ResponseWriter` is the list of calls a handler has made on it, in order.
* The collaborators that are not part of `main.go` (`rs.Introspect`, `json.Marshal`
  on the introspection response) are parameters of the handlers.
* A failed single-value type assertion is a run-time panic: the handler returns
  `Except.error` and nothing further is written.
-/

namespace OidcTest

/-! ## Data model -/

/-- A decoded JSON value, as `encoding/json` stores it in an `interface{}`. The
payload of a number is never inspected by the handlers. -/
inductive ClaimValue where
  | null : ClaimValue
  | bool (b : Bool) : ClaimValue
  | number (n : Int) : ClaimValue
  | str (s : String) : ClaimValue
  | seq (items : List ClaimValue) : ClaimValue
  | map (entries : List (String × ClaimValue)) : ClaimValue

/-- Go map indexing `m[key]`: the value stored under `key`, or nothing (the nil
interface) when the key is absent. -/
def mapIndex (m : List (String × ClaimValue)) (key : String) : Option ClaimValue :=
  (m.find? (fun kv => kv.1 == key)).map (fun kv => kv.2)

/-- The two-value type assertion `v.(string)`. -/
def assertString : Option ClaimValue → String × Bool
  | some (ClaimValue.str s) => (s, true)
  | _ => ("", false)

/-- The two-value type assertion `v.(map[string]interface{})`. -/
def assertMap : Option ClaimValue → List (String × ClaimValue) × Bool
  | some (ClaimValue.map m) => (m, true)
  | _ => ([], false)

/-- The two-value type assertion `v.([]interface{})`. -/
def assertSlice : Option ClaimValue → List ClaimValue × Bool
  | some (ClaimValue.seq xs) => (xs, true)
  | _ => ([], false)

/-- The single-value type assertion `item.(string)`: it panics when the dynamic
type is not `string`. -/
def mustString : ClaimValue → Except String String
  | ClaimValue.str s => Except.ok s
  | _ => Except.error "interface conversion: interface \x7b\x7d is not string"

/-- The value behind the `oidc.IntrospectionResponse` interface: the active flag,
the standard claims the handlers read (each present or absent in the introspection
document) and the map of all claims. -/
structure IntrospectionResponse where
  active : Bool
  birthdate : Option String
  email : Option String
  gender : Option String
  picture : Option String
  subject : Option String
  emailVerified : Option Bool
  claims : List (String × ClaimValue)

/-- Modelled from the spec: the accessors of `oidc.IntrospectionResponse` live in the
`zitadel/oidc` library, not in this repository. `GetClaim` indexes the claim map. -/
def IntrospectionResponse.GetClaim (resp : IntrospectionResponse) (key : String) :
    Option ClaimValue :=
  mapIndex resp.claims key

/-- Modelled from the spec: library accessor; an absent claim yields Go's zero
value, the empty string. -/
def IntrospectionResponse.GetBirthdate (resp : IntrospectionResponse) : String :=
  resp.birthdate.getD ""

/-- Modelled from the spec: library accessor; an absent claim yields the empty string. -/
def IntrospectionResponse.GetEmail (resp : IntrospectionResponse) : String :=
  resp.email.getD ""

/-- Modelled from the spec: library accessor; an absent claim yields the empty string. -/
def IntrospectionResponse.GetGender (resp : IntrospectionResponse) : String :=
  resp.gender.getD ""

/-- Modelled from the spec: library accessor; an absent claim yields the empty string. -/
def IntrospectionResponse.GetPicture (resp : IntrospectionResponse) : String :=
  resp.picture.getD ""

/-- Modelled from the spec: library accessor; an absent claim yields the empty string. -/
def IntrospectionResponse.GetSubject (resp : IntrospectionResponse) : String :=
  resp.subject.getD ""

/-- Modelled from the spec: library accessor returning a Go `bool`; an absent flag
yields the zero value `false`. -/
def IntrospectionResponse.IsEmailVerified (resp : IntrospectionResponse) : Bool :=
  resp.emailVerified.getD false

/-- One call on the `http.ResponseWriter`. -/
inductive Effect where
  | httpError (msg : String) (code : Nat) : Effect
  | write (data : String) : Effect
  deriving DecidableEq, Repr

/-- The response writer: the calls made on it so far, oldest first. -/
abbrev ResponseWriter := List Effect

/-- Call `http.Error(w, msg, code)`. -/
def httpError (w : ResponseWriter) (msg : String) (code : Nat) : ResponseWriter :=
  w ++ [Effect.httpError msg code]

/-- Call `w.Write(data)`. -/
def write (w : ResponseWriter) (data : String) : ResponseWriter :=
  w ++ [Effect.write data]

def StatusUnauthorized : Nat := 401
def StatusForbidden : Nat := 403
def StatusInternalServerError : Nat := 500

/-- The part of `*http.Request` the handlers read: the `Authorization` header
(absent or a value) and the route variables of `mux.Vars`. -/
structure Request where
  authorization : Option String
  vars : List (String × String)

/-- Evaluate `r.Header.Get("authorization")`: the empty string when the header is absent. -/
def Request.headerGet (r : Request) : String :=
  r.authorization.getD ""

/-- Go map indexing on `mux.Vars(r)`: the empty string when the variable is absent. -/
def varsIndex (vars : List (String × String)) (key : String) : String :=
  ((vars.find? (fun kv => kv.1 == key)).map (fun kv => kv.2)).getD ""

/-- The collaborators of the handlers. `Introspect` is `rs.Introspect` for the
configured provider: it returns a response together with an optional error
message (`none` is the nil error). `Marshal` is `json.Marshal` on an
introspection response. -/
structure Collaborators where
  Introspect : String → IntrospectionResponse × Option String
  Marshal : IntrospectionResponse → String × Option String

/-! ## `checkToken` -/

/-- The constant `oidc.PrefixBearer`. -/
def PrefixBearer : String := "Bearer "

/-- Go `strings.HasPrefix`: `len(s) >= len(prefix) && s[:len(prefix)] == prefix`. -/
def HasPrefix (s pre : String) : Bool :=
  decide (pre.data.length ≤ s.data.length) && (s.data.take pre.data.length == pre.data)

/-- Go `strings.TrimPrefix`: drop one leading `prefix` when there is one. -/
def TrimPrefix (s pre : String) : String :=
  if HasPrefix s pre then String.mk (s.data.drop pre.data.length) else s

/-- The function `checkToken`: the writer after the call, the success flag and the token. -/
def checkToken (w : ResponseWriter) (r : Request) : ResponseWriter × Bool × String :=
  let auth := r.headerGet
  if auth = "" then
    (httpError w "auth header missing" StatusUnauthorized, false, "")
  else if !HasPrefix auth PrefixBearer then
    (httpError w "invalid header" StatusUnauthorized, false, "")
  else
    (w, true, TrimPrefix auth PrefixBearer)

/-! ## Handlers -/

/-- Handler of `/protected`. -/
def protectedHandler (env : Collaborators) (w : ResponseWriter) (r : Request) :
    Except String ResponseWriter :=
  match checkToken w r with
  | (w1, false, _) => Except.ok w1
  | (w1, true, token) =>
    match env.Introspect token with
    | (_, some err) => Except.ok (httpError w1 err StatusForbidden)
    | (resp, none) =>
      match env.Marshal resp with
      | (_, some err) => Except.ok (httpError w1 err StatusInternalServerError)
      | (data, none) => Except.ok (write w1 data)

/-- Handler of `/protected/{claim}/{value}`. -/
def protectedClaimHandler (env : Collaborators) (w : ResponseWriter) (r : Request) :
    Except String ResponseWriter :=
  match checkToken w r with
  | (w1, false, _) => Except.ok w1
  | (w1, true, token) =>
    match env.Introspect token with
    | (_, some err) => Except.ok (httpError w1 err StatusForbidden)
    | (resp, none) =>
      let requestedClaim := varsIndex r.vars "claim"
      let requestedValue := varsIndex r.vars "value"
      let (value, ok) := assertString (resp.GetClaim requestedClaim)
      if !ok || value = "" || value ≠ requestedValue then
        Except.ok (httpError w1 "claim does not match" StatusForbidden)
      else
        Except.ok (write w1 ("authorized with value " ++ value))

/-- The six lines built by the handler of `/protected-standards`, before `strings.Join`. -/
def standardOutputs (resp : IntrospectionResponse) : List String :=
  [ "Birthday=" ++ resp.GetBirthdate,
    "Email=" ++ resp.GetEmail,
    "Gender=" ++ resp.GetGender,
    "Picture=" ++ resp.GetPicture,
    "Subject=" ++ resp.GetSubject,
    "Email Verified=" ++ (if resp.IsEmailVerified then "true" else "false") ]

/-- Handler of `/protected-standards`. -/
def protectedStandardsHandler (env : Collaborators) (w : ResponseWriter) (r : Request) :
    Except String ResponseWriter :=
  match checkToken w r with
  | (w1, false, _) => Except.ok w1
  | (w1, true, token) =>
    match env.Introspect token with
    | (_, some err) => Except.ok (httpError w1 err StatusForbidden)
    | (resp, none) => Except.ok (write w1 ("\n".intercalate (standardOutputs resp)))

/-! ## `json.Marshal` on a `[]string` -/

def quoteChar : Char := Char.ofNat 0x22
def backslashChar : Char := Char.ofNat 0x5C
def lineSeparator : Char := Char.ofNat 0x2028
def paragraphSeparator : Char := Char.ofNat 0x2029

/-- The digit table `hex = "0123456789abcdef"` of `encoding/json`. -/
def hex (n : Nat) : Char :=
  "0123456789abcdef".data.getD n '0'

/-- The table `htmlSafeSet` of `encoding/json`: the ASCII characters written
without escaping, i.e. `0x20 .. 0x7f` apart from the quote, the backslash and
the three characters `&`, `<`, `>`. -/
def htmlSafeSet (c : Char) : Bool :=
  decide (0x20 ≤ c.toNat) && decide (c.toNat < 0x80) && !(c == quoteChar) &&
    !(c == backslashChar) && !(c == '&') && !(c == '<') && !(c == '>')

/-- One iteration of the loop of `appendString` (with `escapeHTML` set) on a
string of valid UTF-8: what is written for the rune `c`. Go releases before 1.22
write backspace and form feed as `\u0008` and `\u000c` instead of the two-letter
escapes; both forms denote the same character. -/
def appendRune (c : Char) : List Char :=
  if c.toNat < 0x80 then
    if htmlSafeSet c then [c]
    else if c = backslashChar ∨ c = quoteChar then [backslashChar, c]
    else if c = Char.ofNat 0x08 then [backslashChar, 'b']
    else if c = Char.ofNat 0x0C then [backslashChar, 'f']
    else if c = Char.ofNat 0x0A then [backslashChar, 'n']
    else if c = Char.ofNat 0x0D then [backslashChar, 'r']
    else if c = Char.ofNat 0x09 then [backslashChar, 't']
    else [backslashChar, 'u', '0', '0', hex (c.toNat / 16), hex (c.toNat % 16)]
  else if c = lineSeparator ∨ c = paragraphSeparator then
    [backslashChar, 'u', '2', '0', '2', hex (c.toNat % 16)]
  else [c]

/-- The body of a JSON string literal, without the surrounding quotes. -/
def appendRunes : List Char → List Char
  | [] => []
  | c :: cs => appendRune c ++ appendRunes cs

/-- The function `appendString` of `encoding/json`: the quoted, escaped literal. -/
def appendString (s : String) : List Char :=
  quoteChar :: (appendRunes s.data ++ [quoteChar])

/-- The array encoder after the first element: a comma before each further
element, then the closing bracket. -/
def encodeRest : List String → List Char
  | [] => [']']
  | s :: rest => ',' :: (appendString s ++ encodeRest rest)

/-- Marshal a non-nil `[]string` as `json.Marshal` does: `[`, the elements
separated by commas, `]`. -/
def jsonMarshalStrings : List String → String
  | [] => String.mk ['[', ']']
  | s :: rest => String.mk ('[' :: (appendString s ++ encodeRest rest))

/-! ## The handler of `/protected-roles` -/

/-- The loop `for i, item := range roles { a[i] = item.(string) }`: it panics at
the first element that is not a string. -/
def coerceRoles : List ClaimValue → Except String (List String)
  | [] => Except.ok []
  | item :: rest =>
    match mustString item with
    | Except.error e => Except.error e
    | Except.ok s =>
      match coerceRoles rest with
      | Except.error e => Except.error e
      | Except.ok a => Except.ok (s :: a)

/-- Handler of `/protected-roles`. -/
def protectedRolesHandler (env : Collaborators) (w : ResponseWriter) (r : Request) :
    Except String ResponseWriter :=
  match checkToken w r with
  | (w1, false, _) => Except.ok w1
  | (w1, true, token) =>
    match env.Introspect token with
    | (_, some err) => Except.ok (httpError w1 err StatusForbidden)
    | (resp, none) =>
      match assertMap (resp.GetClaim "resource_access") with
      | (_, false) => Except.ok (httpError w1 "cannot retrieve resource_access" StatusForbidden)
      | (aa, true) =>
        match assertMap (mapIndex aa "account") with
        | (_, false) =>
          Except.ok (httpError w1 "cannot retrieve account resource_access" StatusForbidden)
        | (c, true) =>
          match assertSlice (mapIndex c "roles") with
          | (_, false) =>
            Except.ok (httpError w1 "cannot retrieve account resource_access" StatusForbidden)
          | (roles, true) =>
            match coerceRoles roles with
            | Except.error e => Except.error e
            | Except.ok a => Except.ok (write w1 (jsonMarshalStrings a))

/-! ## A decoder for a JSON array of strings (the receiving side of the wire) -/

/-- JSON insignificant whitespace. -/
def isSpace (c : Char) : Bool :=
  c == ' ' || c == Char.ofNat 0x09 || c == Char.ofNat 0x0A || c == Char.ofNat 0x0D

/-- Drop leading whitespace. -/
def skipSpace : List Char → List Char
  | [] => []
  | c :: cs => if isSpace c then skipSpace cs else c :: cs

/-- Value of a hexadecimal digit. -/
def hexVal (c : Char) : Option Nat :=
  if '0'.toNat ≤ c.toNat ∧ c.toNat ≤ '9'.toNat then some (c.toNat - '0'.toNat)
  else if 'a'.toNat ≤ c.toNat ∧ c.toNat ≤ 'f'.toNat then some (c.toNat - 'a'.toNat + 10)
  else if 'A'.toNat ≤ c.toNat ∧ c.toNat ≤ 'F'.toNat then some (c.toNat - 'A'.toNat + 10)
  else none

/-- Read four hexadecimal digits. -/
def hex4 : List Char → Option (Nat × List Char)
  | a :: b :: c :: d :: rest =>
    match hexVal a, hexVal b, hexVal c, hexVal d with
    | some x, some y, some z, some t => some (((x * 16 + y) * 16 + z) * 16 + t, rest)
    | _, _, _, _ => none
  | _ => none

def replacementChar : Char := Char.ofNat 0xFFFD

/-- Decode what follows a backslash. A high surrogate followed by an escaped low
surrogate is one code point; an unpaired surrogate decodes to U+FFFD. -/
def decodeEscape : List Char → Option (Char × List Char)
  | [] => none
  | e :: rest =>
    if e = quoteChar then some (quoteChar, rest)
    else if e = backslashChar then some (backslashChar, rest)
    else if e = '/' then some ('/', rest)
    else if e = 'b' then some (Char.ofNat 0x08, rest)
    else if e = 'f' then some (Char.ofNat 0x0C, rest)
    else if e = 'n' then some (Char.ofNat 0x0A, rest)
    else if e = 'r' then some (Char.ofNat 0x0D, rest)
    else if e = 't' then some (Char.ofNat 0x09, rest)
    else if e = 'u' then
      match hex4 rest with
      | none => none
      | some (n, rest1) =>
        if 0xD800 ≤ n ∧ n < 0xDC00 then
          match rest1 with
          | b :: u :: rest2 =>
            if b = backslashChar ∧ u = 'u' then
              match hex4 rest2 with
              | none => none
              | some (m, rest3) =>
                if 0xDC00 ≤ m ∧ m < 0xE000 then
                  some (Char.ofNat (0x10000 + (n - 0xD800) * 0x400 + (m - 0xDC00)), rest3)
                else some (replacementChar, rest1)
            else some (replacementChar, rest1)
          | _ => some (replacementChar, rest1)
        else if 0xDC00 ≤ n ∧ n < 0xE000 then some (replacementChar, rest1)
        else some (Char.ofNat n, rest1)
    else none

/-- Decode the body of a string literal up to its closing quote: the decoded
characters and the input left after the quote. Each round consumes input, so
fuel equal to the length of the input is enough. -/
def decodeBody : Nat → List Char → Option (List Char × List Char)
  | 0, _ => none
  | _ + 1, [] => none
  | fuel + 1, c :: rest =>
    if c = quoteChar then some ([], rest)
    else if c = backslashChar then
      match decodeEscape rest with
      | none => none
      | some (d, rest1) =>
        match decodeBody fuel rest1 with
        | none => none
        | some (ds, rest2) => some (d :: ds, rest2)
    else if c.toNat < 0x20 then none
    else
      match decodeBody fuel rest with
      | none => none
      | some (ds, rest2) => some (c :: ds, rest2)

/-- Decode the elements of a non-empty array, from the first element to the end
of the input. -/
def decodeElems : Nat → List Char → Option (List String)
  | 0, _ => none
  | fuel + 1, cs =>
    match skipSpace cs with
    | q :: rest =>
      if q = quoteChar then
        match decodeBody rest.length rest with
        | none => none
        | some (ds, rest1) =>
          match skipSpace rest1 with
          | sep :: rest2 =>
            if sep = ',' then
              match decodeElems fuel rest2 with
              | none => none
              | some ss => some (String.mk ds :: ss)
            else if sep = ']' ∧ skipSpace rest2 = [] then some [String.mk ds]
            else none
          | [] => none
      else none
    | [] => none

/-- Decode a whole document as a JSON array of strings. -/
def decodeStringList (doc : String) : Option (List String) :=
  match skipSpace doc.data with
  | o :: rest =>
    if o = '[' then
      match skipSpace rest with
      | c :: tail =>
        if c = ']' ∧ skipSpace tail = [] then some []
        else decodeElems doc.data.length (c :: tail)
      | [] => none
    else none
  | [] => none

/-! ## Sample inputs -/

/-- Collaborators whose introspection call succeeds with `resp` for every token. -/
def staticEnv (resp : IntrospectionResponse) : Collaborators :=
  { Introspect := fun _ => (resp, none), Marshal := fun _ => ("\x7b\x7d", none) }

/-- Collaborators whose introspection call fails with the message `msg`, the
error being paired with the response `resp`. -/
def failingEnv (resp : IntrospectionResponse) (msg : String) : Collaborators :=
  { Introspect := fun _ => (resp, some msg), Marshal := fun _ => ("\x7b\x7d", none) }

/-- A request carrying the bearer token `tok` and the given route variables. -/
def bearerRequest (vars : List (String × String)) : Request :=
  { authorization := some "Bearer tok", vars := vars }

/-- An introspection response with the given active flag and claim map and no
standard claim. -/
def respWithClaims (active : Bool) (claims : List (String × ClaimValue)) :
    IntrospectionResponse :=
  { active := active, birthdate := none, email := none, gender := none, picture := none,
    subject := none, emailVerified := none, claims := claims }

/-- The claim map `{"resource_access":{"account":{"roles": items}}}`. -/
def rolesClaims (items : List ClaimValue) : List (String × ClaimValue) :=
  [("resource_access",
    ClaimValue.map [("account", ClaimValue.map [("roles", ClaimValue.seq items)])])]

end OidcTest

/-! ## Theorems -/

namespace OidcTest

theorem hasPrefix_append (p t : String) : HasPrefix (p ++ t) p = true := by
  simp [HasPrefix, String.data_append]

theorem trimPrefix_append (p t : String) : TrimPrefix (p ++ t) p = t := by
  simp [TrimPrefix, hasPrefix_append, String.data_append]

theorem bearer_ne_empty (t : String) : PrefixBearer ++ t ≠ "" := by
  intro h
  have h2 := congrArg String.length h
  simp [PrefixBearer, String.length_append] at h2
  exact absurd h2.1 (by decide)

theorem hasPrefix_split (s p : String) (h : HasPrefix s p = true) :
    s = p ++ String.mk (s.data.drop p.data.length) := by
  simp only [HasPrefix, Bool.and_eq_true, decide_eq_true_eq, beq_iff_eq] at h
  apply String.ext
  have h3 := List.take_append_drop p.data.length s.data
  rw [h.2] at h3
  rw [String.data_append]
  exact h3.symm

theorem checkToken_of_bearer (w : ResponseWriter) (r : Request) (t : String)
    (h : r.authorization = some (PrefixBearer ++ t)) : checkToken w r = (w, true, t) := by
  simp [checkToken, Request.headerGet, h, hasPrefix_append, trimPrefix_append, bearer_ne_empty]

/-- C2: for every string `t`, `checkToken` on a request whose Authorization header is
`"Bearer " ++ t` returns `(true, t)`, the token being exactly `t`, and leaves the
response writer untouched (no error response is written). -/
theorem checkToken_bearer_returns_token (w : ResponseWriter) (vars : List (String × String))
    (t : String) :
    checkToken w { authorization := some ("Bearer " ++ t), vars := vars } = (w, true, t) :=
  checkToken_of_bearer w _ t rfl

example : checkToken [] { authorization := some "Bearer Bearer a  b ", vars := [] } = ([], true, "Bearer a  b ") := by decide
example : checkToken [] { authorization := some "Bearer ", vars := [] } = ([], true, "") := by decide
example : checkToken [] { authorization := some "Bearer", vars := [] } = ([Effect.httpError "invalid header" 401], false, "") := by decide

theorem lowercase_scheme_not_bearer (t : String) :
    Request.headerGet { authorization := some "bearer x", vars := [] } ≠ "Bearer " ++ t := by
  intro h
  have h2 := congrArg (fun s : String => s.data.head?) h
  simp [Request.headerGet, String.data_append] at h2

/-- C3: for every request whose Authorization header value does not start with the
case-sensitive prefix `"Bearer "`, `checkToken` returns `(false, "")` and writes exactly
one 401 response, which is "auth header missing" exactly when the header is absent or
empty and "invalid header" exactly when it is non-empty. -/
theorem checkToken_rejects_non_bearer (w : ResponseWriter) (r : Request)
    (hno : ∀ t : String, r.headerGet ≠ "Bearer " ++ t) :
    (checkToken w r).2 = (false, "") ∧
    (r.headerGet = "" ↔ (r.authorization = none ∨ r.authorization = some "")) ∧
    ((checkToken w r).1 = w ++ [Effect.httpError "auth header missing" 401]
      ↔ r.headerGet = "") ∧
    ((checkToken w r).1 = w ++ [Effect.httpError "invalid header" 401]
      ↔ r.headerGet ≠ "") := by
  have h : HasPrefix r.headerGet PrefixBearer = false := by
    cases hp : HasPrefix r.headerGet PrefixBearer
    · rfl
    · exact absurd (hasPrefix_split _ _ hp) (hno _)
  refine ⟨?_, ?_, ?_, ?_⟩
  · by_cases he : r.headerGet = "" <;> simp [checkToken, he, h]
  · cases ha : r.authorization <;> simp [Request.headerGet, ha]
  · by_cases he : r.headerGet = "" <;>
      simp [checkToken, he, h, httpError, StatusUnauthorized]
  · by_cases he : r.headerGet = "" <;>
      simp [checkToken, he, h, httpError, StatusUnauthorized]

theorem checkToken_rejects_non_bearer_witness :
    (∀ t : String,
      Request.headerGet { authorization := some "bearer x", vars := [] } ≠ "Bearer " ++ t) ∧
    (checkToken [] { authorization := some "bearer x", vars := [] }).2 = (false, "") ∧
    (checkToken [] { authorization := some "bearer x", vars := [] }).1
      = [Effect.httpError "invalid header" 401] :=
  ⟨lowercase_scheme_not_bearer,
   (checkToken_rejects_non_bearer [] { authorization := some "bearer x", vars := [] }
      lowercase_scheme_not_bearer).1,
   by decide⟩

/-- C4: for every active introspection result, claim name `n` and expected value `e`, the
exact-claim endpoint authorizes (writes a payload) if and only if the claim `n` is present
with a string value that is non-empty and equal to `e`; when it authorizes the body is
`"authorized with value " ++ value`, and otherwise the response is 403 with the message
"claim does not match". -/
theorem exact_claim_authorizes_iff (env : Collaborators) (w : ResponseWriter) (r : Request)
    (t : String) (resp : IntrospectionResponse) (n e : String)
    (hauth : r.authorization = some ("Bearer " ++ t))
    (hintro : env.Introspect t = (resp, none))
    (_hactive : resp.active = true)
    (hn : varsIndex r.vars "claim" = n) (he : varsIndex r.vars "value" = e) :
    ((∃ d, protectedClaimHandler env w r = Except.ok (w ++ [Effect.write d])) ↔
      (∃ v, resp.GetClaim n = some (ClaimValue.str v) ∧ v ≠ "" ∧ v = e)) ∧
    (∀ v, resp.GetClaim n = some (ClaimValue.str v) → v ≠ "" → v = e →
      protectedClaimHandler env w r
        = Except.ok (w ++ [Effect.write ("authorized with value " ++ v)])) ∧
    ((¬ ∃ v, resp.GetClaim n = some (ClaimValue.str v) ∧ v ≠ "" ∧ v = e) →
      protectedClaimHandler env w r
        = Except.ok (w ++ [Effect.httpError "claim does not match" 403])) := by
  have hpos : ∀ v, resp.GetClaim n = some (ClaimValue.str v) → v ≠ "" → v = e →
      protectedClaimHandler env w r
        = Except.ok (w ++ [Effect.write ("authorized with value " ++ v)]) := by
    intro v hv hne hve
    subst hve
    simp [protectedClaimHandler, checkToken_of_bearer w r t hauth, hintro, hn, he, hv,
      assertString, hne, write]
  have hneg : (¬ ∃ v, resp.GetClaim n = some (ClaimValue.str v) ∧ v ≠ "" ∧ v = e) →
      protectedClaimHandler env w r
        = Except.ok (w ++ [Effect.httpError "claim does not match" 403]) := by
    intro hnot
    simp only [protectedClaimHandler, checkToken_of_bearer w r t hauth, hintro, hn, he]
    cases hc : resp.GetClaim n with
    | none => simp [assertString, httpError, StatusForbidden]
    | some cv =>
      cases cv with
      | str v =>
        have hv : v = "" ∨ v ≠ e := by
          by_cases h1 : v = ""
          · exact Or.inl h1
          · by_cases h2 : v = e
            · exact absurd ⟨v, hc, h1, h2⟩ hnot
            · exact Or.inr h2
        rcases hv with h1 | h2
        · simp [assertString, httpError, StatusForbidden, h1]
        · simp [assertString, httpError, StatusForbidden, h2]
      | _ => simp [assertString, httpError, StatusForbidden]
  refine ⟨⟨?_, ?_⟩, hpos, hneg⟩
  · rintro ⟨d, hd⟩
    by_contra hnot
    rw [hneg hnot] at hd
    simp at hd
  · rintro ⟨v, hv, h1, h2⟩
    exact ⟨_, hpos v hv h1 h2⟩

theorem exact_claim_authorizes_iff_witness :
    protectedClaimHandler
        (staticEnv (respWithClaims true [("username", ClaimValue.str "alice")])) []
        (bearerRequest [("claim", "username"), ("value", "alice")])
      = Except.ok [Effect.write "authorized with value alice"] :=
  (exact_claim_authorizes_iff
      (staticEnv (respWithClaims true [("username", ClaimValue.str "alice")])) []
      (bearerRequest [("claim", "username"), ("value", "alice")]) "tok"
      (respWithClaims true [("username", ClaimValue.str "alice")]) "username" "alice"
      rfl rfl rfl (by decide) (by decide)).2.1 "alice" rfl (by decide) rfl

/-- C8: on every protected endpoint, for a request with a well-formed bearer header, when
the introspection call returns an error the handler writes exactly one response, the
error message with status 403, whatever response value accompanies the error and whatever
the route variables are; no payload is written. -/
theorem introspection_error_denies (env : Collaborators) (w : ResponseWriter) (r : Request)
    (t : String) (resp : IntrospectionResponse) (e : String)
    (hauth : r.authorization = some ("Bearer " ++ t))
    (hintro : env.Introspect t = (resp, some e)) :
    protectedHandler env w r = Except.ok (w ++ [Effect.httpError e 403]) ∧
    protectedClaimHandler env w r = Except.ok (w ++ [Effect.httpError e 403]) ∧
    protectedStandardsHandler env w r = Except.ok (w ++ [Effect.httpError e 403]) ∧
    protectedRolesHandler env w r = Except.ok (w ++ [Effect.httpError e 403]) := by
  refine ⟨?_, ?_, ?_, ?_⟩
  · simp [protectedHandler, checkToken_of_bearer w r t hauth, hintro, httpError,
      StatusForbidden]
  · simp [protectedClaimHandler, checkToken_of_bearer w r t hauth, hintro, httpError,
      StatusForbidden]
  · simp [protectedStandardsHandler, checkToken_of_bearer w r t hauth, hintro, httpError,
      StatusForbidden]
  · simp [protectedRolesHandler, checkToken_of_bearer w r t hauth, hintro, httpError,
      StatusForbidden]

theorem introspection_error_denies_witness :
    protectedClaimHandler
        (failingEnv (respWithClaims true [("username", ClaimValue.str "alice")]) "unreachable")
        [] (bearerRequest [("claim", "username"), ("value", "alice")])
      = Except.ok [Effect.httpError "unreachable" 403] :=
  (introspection_error_denies
      (failingEnv (respWithClaims true [("username", ClaimValue.str "alice")]) "unreachable")
      [] (bearerRequest [("claim", "username"), ("value", "alice")]) "tok"
      (respWithClaims true [("username", ClaimValue.str "alice")]) "unreachable"
      rfl rfl).2.1

/-- The nested lookup of the roles handler, step by step. -/
theorem roles_lookup_cases (env : Collaborators) (w : ResponseWriter) (r : Request)
    (t : String) (resp : IntrospectionResponse)
    (hauth : r.authorization = some ("Bearer " ++ t))
    (hintro : env.Introspect t = (resp, none)) :
    ((∀ aa, resp.GetClaim "resource_access" ≠ some (ClaimValue.map aa)) →
      protectedRolesHandler env w r
        = Except.ok (w ++ [Effect.httpError "cannot retrieve resource_access" 403])) ∧
    (∀ aa, resp.GetClaim "resource_access" = some (ClaimValue.map aa) →
      (∀ c, mapIndex aa "account" ≠ some (ClaimValue.map c)) →
      protectedRolesHandler env w r
        = Except.ok (w ++ [Effect.httpError "cannot retrieve account resource_access" 403])) ∧
    (∀ aa c, resp.GetClaim "resource_access" = some (ClaimValue.map aa) →
      mapIndex aa "account" = some (ClaimValue.map c) →
      (∀ xs, mapIndex c "roles" ≠ some (ClaimValue.seq xs)) →
      protectedRolesHandler env w r
        = Except.ok (w ++ [Effect.httpError "cannot retrieve account resource_access" 403])) ∧
    (∀ aa c xs, resp.GetClaim "resource_access" = some (ClaimValue.map aa) →
      mapIndex aa "account" = some (ClaimValue.map c) →
      mapIndex c "roles" = some (ClaimValue.seq xs) →
      protectedRolesHandler env w r =
        match coerceRoles xs with
        | Except.error e => Except.error e
        | Except.ok a => Except.ok (w ++ [Effect.write (jsonMarshalStrings a)])) := by
  have notMap : ∀ v : Option ClaimValue, (∀ m, v ≠ some (ClaimValue.map m)) →
      (assertMap v).2 = false := by
    intro v hv
    cases v with
    | none => rfl
    | some cv => cases cv <;> first | rfl | exact absurd rfl (hv _)
  have notSeq : ∀ v : Option ClaimValue, (∀ m, v ≠ some (ClaimValue.seq m)) →
      (assertSlice v).2 = false := by
    intro v hv
    cases v with
    | none => rfl
    | some cv => cases cv <;> first | rfl | exact absurd rfl (hv _)
  refine ⟨?_, ?_, ?_, ?_⟩
  · intro h1
    have h := notMap _ h1
    simp only [protectedRolesHandler, checkToken_of_bearer w r t hauth, hintro]
    cases hm : assertMap (resp.GetClaim "resource_access") with
    | mk aa ok =>
      rw [hm] at h
      simp at h
      subst h
      simp [httpError, StatusForbidden]
  · intro aa h1 h2
    have h := notMap _ h2
    simp only [protectedRolesHandler, checkToken_of_bearer w r t hauth, hintro, h1, assertMap]
    cases hm : assertMap (mapIndex aa "account") with
    | mk c ok =>
      rw [hm] at h
      simp at h
      subst h
      simp [httpError, StatusForbidden]
  · intro aa c h1 h2 h3
    have h := notSeq _ h3
    simp only [protectedRolesHandler, checkToken_of_bearer w r t hauth, hintro, h1, h2,
      assertMap]
    cases hm : assertSlice (mapIndex c "roles") with
    | mk xs ok =>
      rw [hm] at h
      simp at h
      subst h
      simp [httpError, StatusForbidden]
  · intro aa c xs h1 h2 h3
    simp only [protectedRolesHandler, checkToken_of_bearer w r t hauth, hintro, h1, h2, h3,
      assertMap, assertSlice]
    cases coerceRoles xs <;> simp [write]

/-- C6: for every active introspection result in which "resource_access" is absent or not
a mapping, or its "account" entry is absent or not a mapping, or that entry's "roles" field
is absent or not a sequence, the nested-role endpoint writes exactly one response, an error
with status 403, and writes no role list. -/
theorem roles_lookup_failure_denies (env : Collaborators) (w : ResponseWriter) (r : Request)
    (t : String) (resp : IntrospectionResponse)
    (hauth : r.authorization = some ("Bearer " ++ t))
    (hintro : env.Introspect t = (resp, none))
    (_hactive : resp.active = true)
    (hfail :
      (∀ aa, resp.GetClaim "resource_access" ≠ some (ClaimValue.map aa)) ∨
      (∃ aa, resp.GetClaim "resource_access" = some (ClaimValue.map aa) ∧
        ∀ c, mapIndex aa "account" ≠ some (ClaimValue.map c)) ∨
      (∃ aa c, resp.GetClaim "resource_access" = some (ClaimValue.map aa) ∧
        mapIndex aa "account" = some (ClaimValue.map c) ∧
        ∀ xs, mapIndex c "roles" ≠ some (ClaimValue.seq xs))) :
    (∃ msg, protectedRolesHandler env w r = Except.ok (w ++ [Effect.httpError msg 403])) ∧
    (∀ d, protectedRolesHandler env w r ≠ Except.ok (w ++ [Effect.write d])) := by
  have hc := roles_lookup_cases env w r t resp hauth hintro
  have hex : ∃ msg, protectedRolesHandler env w r
      = Except.ok (w ++ [Effect.httpError msg 403]) := by
    rcases hfail with h1 | ⟨aa, h1, h2⟩ | ⟨aa, c, h1, h2, h3⟩
    · exact ⟨_, hc.1 h1⟩
    · exact ⟨_, hc.2.1 aa h1 h2⟩
    · exact ⟨_, hc.2.2.1 aa c h1 h2 h3⟩
  refine ⟨hex, ?_⟩
  intro d hd
  obtain ⟨msg, hmsg⟩ := hex
  rw [hmsg] at hd
  simp at hd

theorem roles_lookup_failure_denies_witness :
    ∃ msg, protectedRolesHandler (staticEnv (respWithClaims true [])) [] (bearerRequest [])
      = Except.ok [Effect.httpError msg 403] :=
  (roles_lookup_failure_denies (staticEnv (respWithClaims true [])) [] (bearerRequest [])
    "tok" (respWithClaims true []) rfl rfl rfl
    (Or.inl (fun _ h => Option.noConfusion h))).1

/-- C10, as the claim states it, fails: with "resource_access" an empty mapping (the
"account" entry absent) the denial message is "cannot retrieve account resource_access",
not "cannot retrieve resource_access". -/
theorem account_missing_has_other_message :
    protectedRolesHandler
        (staticEnv (respWithClaims true [("resource_access", ClaimValue.map [])])) []
        (bearerRequest [])
      = Except.ok [Effect.httpError "cannot retrieve account resource_access" 403] ∧
    protectedRolesHandler
        (staticEnv (respWithClaims true [("resource_access", ClaimValue.map [])])) []
        (bearerRequest [])
      ≠ Except.ok [Effect.httpError "cannot retrieve resource_access" 403] := by
  constructor
  · rfl
  · intro h
    have h2 : protectedRolesHandler
        (staticEnv (respWithClaims true [("resource_access", ClaimValue.map [])])) []
        (bearerRequest [])
      = Except.ok [Effect.httpError "cannot retrieve account resource_access" 403] := rfl
    rw [h2] at h
    simp at h

/-- C10 (amended): for every active introspection result on which the nested-role lookup
fails, the response is a 403 whose message is "cannot retrieve resource_access" when
"resource_access" is absent or not a mapping, and "cannot retrieve account resource_access"
when the "account" entry is absent or not a mapping or its "roles" field is absent or not a
sequence. -/
theorem roles_lookup_failure_messages (env : Collaborators) (w : ResponseWriter)
    (r : Request) (t : String) (resp : IntrospectionResponse)
    (hauth : r.authorization = some ("Bearer " ++ t))
    (hintro : env.Introspect t = (resp, none))
    (_hactive : resp.active = true) :
    ((∀ aa, resp.GetClaim "resource_access" ≠ some (ClaimValue.map aa)) →
      protectedRolesHandler env w r
        = Except.ok (w ++ [Effect.httpError "cannot retrieve resource_access" 403])) ∧
    (∀ aa, resp.GetClaim "resource_access" = some (ClaimValue.map aa) →
      (∀ c, mapIndex aa "account" ≠ some (ClaimValue.map c)) →
      protectedRolesHandler env w r
        = Except.ok (w ++ [Effect.httpError "cannot retrieve account resource_access" 403])) ∧
    (∀ aa c, resp.GetClaim "resource_access" = some (ClaimValue.map aa) →
      mapIndex aa "account" = some (ClaimValue.map c) →
      (∀ xs, mapIndex c "roles" ≠ some (ClaimValue.seq xs)) →
      protectedRolesHandler env w r
        = Except.ok (w ++ [Effect.httpError "cannot retrieve account resource_access" 403])) :=
  have hc := roles_lookup_cases env w r t resp hauth hintro
  ⟨hc.1, hc.2.1, hc.2.2.1⟩

theorem roles_lookup_failure_messages_witness :
    protectedRolesHandler
        (staticEnv (respWithClaims true
          [("resource_access", ClaimValue.map [("account", ClaimValue.str "x")])])) []
        (bearerRequest [])
      = Except.ok [Effect.httpError "cannot retrieve account resource_access" 403] :=
  (roles_lookup_failure_messages
      (staticEnv (respWithClaims true
        [("resource_access", ClaimValue.map [("account", ClaimValue.str "x")])])) []
      (bearerRequest []) "tok"
      (respWithClaims true
        [("resource_access", ClaimValue.map [("account", ClaimValue.str "x")])])
      rfl rfl rfl).2.1 [("account", ClaimValue.str "x")] rfl
    (fun _ h => ClaimValue.noConfusion (Option.some.inj h))

/-- C5 fails on the code: with roles `["admin", 42]` the unchecked assertion
`item.(string)` panics, so the handler writes no response at all (no 403). -/
theorem non_string_role_panics :
    protectedRolesHandler
        (staticEnv (respWithClaims true
          (rolesClaims [ClaimValue.str "admin", ClaimValue.number 42]))) []
        (bearerRequest [])
      = Except.error "interface conversion: interface \x7b\x7d is not string" := rfl

/-- C1 fails on the code: no handler reads the active flag, so an inactive token whose
introspection succeeds is served like an active one on all four protected endpoints. -/
theorem inactive_token_is_served :
    protectedHandler (staticEnv (respWithClaims false [])) [] (bearerRequest [])
      = Except.ok [Effect.write "\x7b\x7d"] ∧
    protectedClaimHandler
        (staticEnv (respWithClaims false [("username", ClaimValue.str "alice")])) []
        (bearerRequest [("claim", "username"), ("value", "alice")])
      = Except.ok [Effect.write "authorized with value alice"] ∧
    protectedStandardsHandler (staticEnv (respWithClaims false [])) [] (bearerRequest [])
      = Except.ok [Effect.write
          "Birthday=\nEmail=\nGender=\nPicture=\nSubject=\nEmail Verified=false"] ∧
    protectedRolesHandler
        (staticEnv (respWithClaims false (rolesClaims [ClaimValue.str "admin"]))) []
        (bearerRequest [])
      = Except.ok [Effect.write "[\"admin\"]"] := by
  exact ⟨rfl, rfl, rfl, rfl⟩

/-- C9, as the claim states it, fails: when the email-verified flag is absent its entry
is "Email Verified=false", not "Email Verified=" followed by the empty string. -/
theorem absent_email_verified_renders_false :
    (respWithClaims true []).emailVerified = none ∧
    (standardOutputs (respWithClaims true [])).get? 5 = some "Email Verified=false" ∧
    (standardOutputs (respWithClaims true [])).get? 5 ≠ some ("Email Verified=" ++ "") := by
  decide

/-- C9 (amended): for every active introspection result the standard-claims endpoint
writes the six entries, joined by newlines, in the order birthdate, email, gender, picture,
subject, email-verified flag; a present claim is rendered with its value, an absent string
claim as the empty string after its name, and the flag as "true" when it is present and
true and as "false" when it is false or absent. -/
theorem standards_summary (env : Collaborators) (w : ResponseWriter) (r : Request)
    (t : String) (resp : IntrospectionResponse)
    (hauth : r.authorization = some ("Bearer " ++ t))
    (hintro : env.Introspect t = (resp, none))
    (_hactive : resp.active = true) :
    protectedStandardsHandler env w r
      = Except.ok (w ++ [Effect.write ("\n".intercalate (standardOutputs resp))]) ∧
    standardOutputs resp =
      [ "Birthday=" ++ resp.birthdate.getD "",
        "Email=" ++ resp.email.getD "",
        "Gender=" ++ resp.gender.getD "",
        "Picture=" ++ resp.picture.getD "",
        "Subject=" ++ resp.subject.getD "",
        "Email Verified=" ++ (if resp.emailVerified = some true then "true" else "false") ] := by
  constructor
  · simp [protectedStandardsHandler, checkToken_of_bearer w r t hauth, hintro, write]
  · cases hv : resp.emailVerified with
    | none =>
      simp [standardOutputs, IntrospectionResponse.GetBirthdate,
        IntrospectionResponse.GetEmail, IntrospectionResponse.GetGender,
        IntrospectionResponse.GetPicture, IntrospectionResponse.GetSubject,
        IntrospectionResponse.IsEmailVerified, hv]
    | some b =>
      cases b <;>
      simp [standardOutputs, IntrospectionResponse.GetBirthdate,
        IntrospectionResponse.GetEmail, IntrospectionResponse.GetGender,
        IntrospectionResponse.GetPicture, IntrospectionResponse.GetSubject,
        IntrospectionResponse.IsEmailVerified, hv]

theorem standards_summary_witness :
    protectedStandardsHandler
        (staticEnv { respWithClaims true [] with
          email := some "a@b.com", emailVerified := some true }) [] (bearerRequest [])
      = Except.ok [Effect.write
          "Birthday=\nEmail=a@b.com\nGender=\nPicture=\nSubject=\nEmail Verified=true"] :=
  (standards_summary
      (staticEnv { respWithClaims true [] with
        email := some "a@b.com", emailVerified := some true }) [] (bearerRequest []) "tok"
      { respWithClaims true [] with email := some "a@b.com", emailVerified := some true }
      rfl rfl rfl).1.trans rfl

/-! ### Round trip of the array encoder -/

theorem hexVal_hex : ∀ k, k < 16 → hexVal (hex k) = some k := by decide

theorem decodeBody_quote (fuel : Nat) (rest : List Char) :
    decodeBody (fuel + 1) (quoteChar :: rest) = some ([], rest) := rfl

theorem decodeBody_backslash (fuel : Nat) (rest : List Char) :
    decodeBody (fuel + 1) (backslashChar :: rest) =
      match decodeEscape rest with
      | none => none
      | some (d, rest1) =>
        match decodeBody fuel rest1 with
        | none => none
        | some (ds, rest2) => some (d :: ds, rest2) := rfl

theorem decodeBody_plain (fuel : Nat) (c : Char) (rest : List Char)
    (h1 : c ≠ quoteChar) (h2 : c ≠ backslashChar) (h3 : ¬ c.toNat < 0x20) :
    decodeBody (fuel + 1) (c :: rest) =
      match decodeBody fuel rest with
      | none => none
      | some (ds, rest2) => some (c :: ds, rest2) := by
  simp [decodeBody, h1, h2, h3]

theorem decodeEscape_quote (rest : List Char) :
    decodeEscape (quoteChar :: rest) = some (quoteChar, rest) := rfl

theorem decodeEscape_backslash (rest : List Char) :
    decodeEscape (backslashChar :: rest) = some (backslashChar, rest) := rfl

theorem decodeEscape_b (rest : List Char) :
    decodeEscape ('b' :: rest) = some (Char.ofNat 0x08, rest) := rfl

theorem decodeEscape_f (rest : List Char) :
    decodeEscape ('f' :: rest) = some (Char.ofNat 0x0C, rest) := rfl

theorem decodeEscape_n (rest : List Char) :
    decodeEscape ('n' :: rest) = some (Char.ofNat 0x0A, rest) := rfl

theorem decodeEscape_r (rest : List Char) :
    decodeEscape ('r' :: rest) = some (Char.ofNat 0x0D, rest) := rfl

theorem decodeEscape_t (rest : List Char) :
    decodeEscape ('t' :: rest) = some (Char.ofNat 0x09, rest) := rfl

theorem decodeEscape_u (rest : List Char) :
    decodeEscape ('u' :: rest) =
      match hex4 rest with
      | none => none
      | some (n, rest1) =>
        if 0xD800 ≤ n ∧ n < 0xDC00 then
          match rest1 with
          | b :: u :: rest2 =>
            if b = backslashChar ∧ u = 'u' then
              match hex4 rest2 with
              | none => none
              | some (m, rest3) =>
                if 0xDC00 ≤ m ∧ m < 0xE000 then
                  some (Char.ofNat (0x10000 + (n - 0xD800) * 0x400 + (m - 0xDC00)), rest3)
                else some (replacementChar, rest1)
            else some (replacementChar, rest1)
          | _ => some (replacementChar, rest1)
        else if 0xDC00 ≤ n ∧ n < 0xE000 then some (replacementChar, rest1)
        else some (Char.ofNat n, rest1) := rfl

theorem hex4_digits (a b c d : Nat) (ha : a < 16) (hb : b < 16) (hc : c < 16) (hd : d < 16)
    (rest : List Char) :
    hex4 (hex a :: hex b :: hex c :: hex d :: rest)
      = some (((a * 16 + b) * 16 + c) * 16 + d, rest) := by
  simp [hex4, hexVal_hex a ha, hexVal_hex b hb, hexVal_hex c hc, hexVal_hex d hd]

theorem decodeBody_escaped (fuel : Nat) (e c : Char) (rest tail : List Char)
    (h : decodeEscape (e :: rest) = some (c, tail)) :
    decodeBody (fuel + 1) (backslashChar :: e :: rest) =
      match decodeBody fuel tail with
      | none => none
      | some (ds, rest2) => some (c :: ds, rest2) := by
  rw [decodeBody_backslash, h]

theorem decodeEscape_low (c : Char) (hc : c.toNat < 0x80) (rest : List Char) :
    decodeEscape ('u' :: '0' :: '0' :: hex (c.toNat / 16) :: hex (c.toNat % 16) :: rest)
      = some (c, rest) := by
  have h4 := hex4_digits 0 0 (c.toNat / 16) (c.toNat % 16) (by decide) (by decide)
    (by omega) (by omega) rest
  have h0 : hex 0 = '0' := rfl
  rw [h0] at h4
  rw [decodeEscape_u, h4]
  have hn : ((0 * 16 + 0) * 16 + c.toNat / 16) * 16 + c.toNat % 16 = c.toNat := by omega
  simp only [hn]
  have h1 : ¬ (0xD800 ≤ c.toNat ∧ c.toNat < 0xDC00) := by omega
  have h2 : ¬ (0xDC00 ≤ c.toNat ∧ c.toNat < 0xE000) := by omega
  simp only [h1, h2, if_false, Char.ofNat_toNat]

theorem decodeEscape_separator (c : Char) (hc : c = lineSeparator ∨ c = paragraphSeparator)
    (rest : List Char) :
    decodeEscape ('u' :: '2' :: '0' :: '2' :: hex (c.toNat % 16) :: rest) = some (c, rest) := by
  rcases hc with h | h <;> subst h <;> rfl

theorem decodeBody_appendRune (fuel : Nat) (c : Char) (rest : List Char) :
    decodeBody (fuel + 1) (appendRune c ++ rest) =
      match decodeBody fuel rest with
      | none => none
      | some (ds, rest2) => some (c :: ds, rest2) := by
  unfold appendRune
  split
  next hascii =>
    split
    next hsafe =>
      simp only [htmlSafeSet, Bool.and_eq_true, decide_eq_true_eq, Bool.not_eq_true',
        beq_eq_false_iff_ne, ne_eq] at hsafe
      obtain ⟨⟨⟨⟨⟨⟨hlo, _⟩, hq⟩, hb⟩, _⟩, _⟩, _⟩ := hsafe
      exact decodeBody_plain fuel c rest hq hb (by omega)
    next =>
      split
      next hq =>
        rcases hq with h | h <;> subst h
        · exact decodeBody_escaped fuel _ _ rest rest (decodeEscape_backslash rest)
        · exact decodeBody_escaped fuel _ _ rest rest (decodeEscape_quote rest)
      next =>
        split
        next h => subst h; exact decodeBody_escaped fuel _ _ rest rest (decodeEscape_b rest)
        next =>
        split
        next h => subst h; exact decodeBody_escaped fuel _ _ rest rest (decodeEscape_f rest)
        next =>
        split
        next h => subst h; exact decodeBody_escaped fuel _ _ rest rest (decodeEscape_n rest)
        next =>
        split
        next h => subst h; exact decodeBody_escaped fuel _ _ rest rest (decodeEscape_r rest)
        next =>
        split
        next h => subst h; exact decodeBody_escaped fuel _ _ rest rest (decodeEscape_t rest)
        next =>
          exact decodeBody_escaped fuel _ _ _ rest (decodeEscape_low c hascii rest)
  next hascii =>
    split
    next hsep =>
      exact decodeBody_escaped fuel _ _ _ rest (decodeEscape_separator c hsep rest)
    next =>
      have h1 : c ≠ quoteChar := fun e => hascii (by rw [e]; decide)
      have h2 : c ≠ backslashChar := fun e => hascii (by rw [e]; decide)
      exact decodeBody_plain fuel c rest h1 h2 (by omega)

theorem appendRune_length_pos (c : Char) : 1 ≤ (appendRune c).length := by
  unfold appendRune
  split_ifs <;> simp

theorem appendRunes_length (cs : List Char) : cs.length ≤ (appendRunes cs).length := by
  induction cs with
  | nil => simp [appendRunes]
  | cons c cs ih =>
    have h := appendRune_length_pos c
    simp only [appendRunes, List.length_append, List.length_cons]
    omega

theorem decodeBody_appendRunes (cs : List Char) :
    ∀ (fuel : Nat) (rest : List Char), cs.length + 1 ≤ fuel →
      decodeBody fuel (appendRunes cs ++ quoteChar :: rest) = some (cs, rest) := by
  induction cs with
  | nil =>
    intro fuel rest hf
    obtain ⟨f, rfl⟩ : ∃ f, fuel = f + 1 := ⟨fuel - 1, by simp at hf; omega⟩
    exact decodeBody_quote f rest
  | cons c cs ih =>
    intro fuel rest hf
    obtain ⟨f, rfl⟩ : ∃ f, fuel = f + 1 := ⟨fuel - 1, by simp at hf; omega⟩
    have hf2 : cs.length + 1 ≤ f := by simp at hf; omega
    simp only [appendRunes, List.append_assoc]
    rw [decodeBody_appendRune, ih f rest hf2]

theorem skipSpace_quote (rest : List Char) :
    skipSpace (quoteChar :: rest) = quoteChar :: rest := rfl

theorem encodeRest_length (ss : List String) : ss.length + 1 ≤ (encodeRest ss).length := by
  induction ss with
  | nil => simp [encodeRest]
  | cons s ss ih =>
    simp only [encodeRest, List.length_cons, List.length_append]
    omega

theorem decodeElems_encode (ss : List String) :
    ∀ (s : String) (fuel : Nat), ss.length + 1 ≤ fuel →
      decodeElems fuel (appendString s ++ encodeRest ss) = some (s :: ss) := by
  induction ss with
  | nil =>
    intro s fuel hf
    obtain ⟨f, rfl⟩ : ∃ f, fuel = f + 1 := ⟨fuel - 1, by simp at hf; omega⟩
    have hbody : ∀ tail : List Char,
        decodeBody (appendRunes s.data ++ quoteChar :: tail).length
          (appendRunes s.data ++ quoteChar :: tail) = some (s.data, tail) := by
      intro tail
      apply decodeBody_appendRunes
      have := appendRunes_length s.data
      simp only [List.length_append, List.length_cons]
      omega
    have hshape : appendString s ++ encodeRest []
        = quoteChar :: (appendRunes s.data ++ quoteChar :: [']']) := by
      simp [appendString, encodeRest]
    rw [hshape]
    simp only [decodeElems, skipSpace_quote, if_true, hbody]
    rfl
  | cons s2 ss ih =>
    intro s fuel hf
    obtain ⟨f, rfl⟩ : ∃ f, fuel = f + 1 := ⟨fuel - 1, by simp at hf; omega⟩
    have hf2 : ss.length + 1 ≤ f := by simp at hf; omega
    have hbody : ∀ tail : List Char,
        decodeBody (appendRunes s.data ++ quoteChar :: tail).length
          (appendRunes s.data ++ quoteChar :: tail) = some (s.data, tail) := by
      intro tail
      apply decodeBody_appendRunes
      have := appendRunes_length s.data
      simp only [List.length_append, List.length_cons]
      omega
    have hshape : appendString s ++ encodeRest (s2 :: ss)
        = quoteChar :: (appendRunes s.data ++
            quoteChar :: ',' :: (appendString s2 ++ encodeRest ss)) := by
      simp [appendString, encodeRest]
    rw [hshape]
    simp only [decodeElems, skipSpace_quote, if_true, hbody]
    have hsk : skipSpace (',' :: (appendString s2 ++ encodeRest ss))
        = ',' :: (appendString s2 ++ encodeRest ss) := rfl
    simp only [hsk, if_true, ih s2 f hf2]

theorem decodeStringList_marshal (rs : List String) :
    decodeStringList (jsonMarshalStrings rs) = some rs := by
  cases rs with
  | nil => rfl
  | cons s ss =>
    have hshape : (jsonMarshalStrings (s :: ss)).data
        = '[' :: quoteChar :: (appendRunes s.data ++ [quoteChar] ++ encodeRest ss) := by
      simp [jsonMarshalStrings, appendString]
    have hback : quoteChar :: (appendRunes s.data ++ [quoteChar] ++ encodeRest ss)
        = appendString s ++ encodeRest ss := by
      simp [appendString]
    have hsk : skipSpace ('[' :: quoteChar :: (appendRunes s.data ++ [quoteChar] ++ encodeRest ss))
        = '[' :: quoteChar :: (appendRunes s.data ++ [quoteChar] ++ encodeRest ss) := rfl
    have hnot : ¬ (quoteChar = ']' ∧
        skipSpace (appendRunes s.data ++ [quoteChar] ++ encodeRest ss) = []) :=
      fun h => absurd h.1 (by decide)
    unfold decodeStringList
    rw [hshape]
    simp only [hsk, skipSpace_quote, if_true, hnot, if_false, hback]
    apply decodeElems_encode
    have := encodeRest_length ss
    simp only [List.length_cons, List.length_append]
    omega

theorem coerceRoles_strings (rs : List String) :
    coerceRoles (rs.map ClaimValue.str) = Except.ok rs := by
  induction rs with
  | nil => rfl
  | cons s rs ih => simp [coerceRoles, mustString, ih]

/-- C7: for every active introspection result whose
`claims["resource_access"]["account"]["roles"]` is a sequence `rs` of strings (possibly
empty), the nested-role endpoint writes the JSON array encoding of `rs`, and decoding that
body as a JSON list of strings yields exactly `rs`. -/
theorem roles_payload_round_trips (env : Collaborators) (w : ResponseWriter) (r : Request)
    (t : String) (resp : IntrospectionResponse) (aa c : List (String × ClaimValue))
    (rs : List String)
    (hauth : r.authorization = some ("Bearer " ++ t))
    (hintro : env.Introspect t = (resp, none))
    (_hactive : resp.active = true)
    (h1 : resp.GetClaim "resource_access" = some (ClaimValue.map aa))
    (h2 : mapIndex aa "account" = some (ClaimValue.map c))
    (h3 : mapIndex c "roles" = some (ClaimValue.seq (rs.map ClaimValue.str))) :
    protectedRolesHandler env w r
      = Except.ok (w ++ [Effect.write (jsonMarshalStrings rs)]) ∧
    decodeStringList (jsonMarshalStrings rs) = some rs := by
  refine ⟨?_, decodeStringList_marshal rs⟩
  rw [(roles_lookup_cases env w r t resp hauth hintro).2.2.2 aa c _ h1 h2 h3,
    coerceRoles_strings]

theorem roles_payload_round_trips_witness :
    protectedRolesHandler
        (staticEnv (respWithClaims true
          (rolesClaims [ClaimValue.str "admin", ClaimValue.str "user"]))) []
        (bearerRequest [])
      = Except.ok [Effect.write (jsonMarshalStrings ["admin", "user"])] ∧
    decodeStringList (jsonMarshalStrings ["admin", "user"]) = some ["admin", "user"] :=
  roles_payload_round_trips
    (staticEnv (respWithClaims true
      (rolesClaims [ClaimValue.str "admin", ClaimValue.str "user"]))) []
    (bearerRequest []) "tok"
    (respWithClaims true (rolesClaims [ClaimValue.str "admin", ClaimValue.str "user"]))
    [("account", ClaimValue.map
      [("roles", ClaimValue.seq [ClaimValue.str "admin", ClaimValue.str "user"])])]
    [("roles", ClaimValue.seq [ClaimValue.str "admin", ClaimValue.str "user"])]
    ["admin", "user"] rfl rfl rfl rfl rfl rfl

end OidcTest
